import Mathlib

set_option linter.unusedVariables false

/-!
Verification of the file-mutation and notebook-editing core.

A shallow embedding of the repository's core tools (`Edit.py`, `MultiEdit.py`,
`NotebookEdit.py`, `NotebookRead.py`, `TodoWrite.py`) over `List Char` models of
Python strings, together with theorems settling the specified properties.

File contents are modelled as `List Char` (a Python `str` is a sequence of
code points; byte-identity of UTF-8 text corresponds to list equality).
Filesystem state for a single target file is `Option (List Char)`
(`none` = the file does not exist).  Path-shape checks (`os.path.isabs`,
`os.path.isfile`) and OS-level failures (permissions, decoding) are outside
the model: every theorem is about the pure content-transforming core that
runs after those guards.
-/

namespace AgencyTools

/-- Shorthand: the character list of a string literal. -/
def chars (s : String) : List Char := s.toList

/-! ## Python string primitives

`countOcc`, `replAll`, `replaceFirst`, `containsSub` model Python's
`str.count`, `str.replace(old, new)`, `str.replace(old, new, 1)` and the
`in` operator.  CPython scans left to right and counts/replaces
non-overlapping occurrences; for the empty pattern, `s.count("") = len(s)+1`,
`s.replace("", n)` puts `n` before every character and at the end, and
`s.replace("", n, 1)` prepends `n`. -/

/-- Occurrence count for a nonempty pattern: greedy left-to-right
non-overlapping scan (CPython `str.count`).  Returns 0 when called with an
empty pattern (that case is diverted in `countOcc`). -/
def countNE (s p : List Char) : Nat :=
  if p = [] ∨ s = [] then 0
  else if p.isPrefixOf s then 1 + countNE (s.drop p.length) p
  else countNE s.tail p
termination_by s.length
decreasing_by
  · rename_i h hpre
    push_neg at h
    have hps : p.length ≤ s.length := ( List.isPrefixOf_iff_prefix.mp hpre).length_le
    have hp1 : 1 ≤ p.length := List.length_pos.mpr h.1
    have hs1 : 1 ≤ s.length := List.length_pos.mpr h.2
    simp only [List.length_drop]
    omega
  · rename_i h _
    push_neg at h
    have hs2 : 1 ≤ s.length := List.length_pos.mpr h.2
    simp only [List.length_tail]
    omega

/-- Python `s.count(p)` (non-overlapping occurrences; `len(s)+1` for `p = ""`). -/
def countOcc (s p : List Char) : Nat :=
  if p = [] then s.length + 1 else countNE s p

/-- Python `p in s` (substring containment; the empty pattern is contained
everywhere). -/
def containsSub (s p : List Char) : Bool :=
  p.isPrefixOf s ||
    (match s with
     | [] => false
     | _ :: t => containsSub t p)

/-- Python `s.replace(p, n, 1)`: replace the first (leftmost) occurrence of
`p` in `s` by `n`; `s` unchanged when `p` does not occur. -/
def replaceFirst (s p n : List Char) : List Char :=
  if p.isPrefixOf s then n ++ s.drop p.length
  else
    match s with
    | [] => []
    | c :: t => c :: replaceFirst t p n

/-- `replAll` for a nonempty pattern: greedy left-to-right non-overlapping
replacement (CPython `str.replace`). -/
def replAllNE (s p n : List Char) : List Char :=
  match s with
  | [] => []
  | c :: t =>
    if h : p ≠ [] ∧ p.isPrefixOf (c :: t) then n ++ replAllNE ((c :: t).drop p.length) p n
    else c :: replAllNE t p n
termination_by s.length
decreasing_by
  · have hp1 : 1 ≤ p.length := List.length_pos.mpr h.1
    simp only [List.length_drop, List.length_cons]
    omega
  · simp only [List.length_cons]
    omega

/-- Python `s.replace(p, n)` (all occurrences; the empty pattern inserts `n`
before every character and at the end). -/
def replAll (s p n : List Char) : List Char :=
  if p = [] then n ++ (s.flatMap fun c => c :: n)
  else replAllNE s p n

/-- Index of the first occurrence of `p` in `s` (Python `s.find(p)` as an
`Option`). -/
def firstOccIdx (s p : List Char) : Option Nat :=
  if p.isPrefixOf s then some 0
  else
    match s with
    | [] => none
    | _ :: t => (firstOccIdx t p).map (· + 1)

/-! ## The Exact-Match Editor (`Edit.run`, steps 1 and 6 to 9)

Steps 2 to 5 (absolute path, existence, regular file, UTF-8 read) are the
filesystem guards outside the model; the outcome below is the pure
content-level behaviour on the file's decoded content. -/

/-- Outcome of `Edit.run` on an existing, decodable file.  Each error
constructor corresponds to one early-`return` message in the source;
`errAmbiguous` carries the occurrence count embedded in the message. -/
inductive EditOutcome where
  | errSameStrings : EditOutcome
  | errStringNotFound : EditOutcome
  | errAmbiguous (occurrences : Nat) : EditOutcome
  | success (newContent : List Char) (replacedCount : Nat) : EditOutcome
  deriving DecidableEq, Repr

/-- `Edit.run` on content `content` with inputs `old`, `new`, `all`
(= `replace_all`), after the filesystem guards. -/
def edit_run (old new : List Char) (all : Bool) (content : List Char) : EditOutcome :=
  if old = new then .errSameStrings
  else if ¬ containsSub content old then .errStringNotFound
  else if ¬ all ∧ 1 < countOcc content old then .errAmbiguous (countOcc content old)
  else if all then .success (replAll content old new) (countOcc content old)
  else .success (replaceFirst content old new) 1

/-- File content after `Edit.run`: the tool writes the new content exactly
when it reaches step 9 (the `success` outcome); on every error path it
returns before the write, leaving the file untouched. -/
def edit_fileAfter (old new : List Char) (all : Bool) (content : List Char) : List Char :=
  match edit_run old new all content with
  | .success c _ => c
  | _ => content

/-! ## The Atomic Multi-Edit Sequencer (`MultiEdit.run`, steps 2 to 8)

Step 1 (absolute path) and the filesystem read/write mechanics are outside
the model; the target file's state is `Option (List Char)` (`none` = the
path does not exist, matching `os.path.exists`). -/

/-- One element of the `edits` array (`EditOperation` in the source). -/
structure EditOperation where
  old_string : List Char
  new_string : List Char
  replace_all : Bool := false
  deriving DecidableEq, Repr

/-- The single-step content transformation the sequencer applies in both the
validation and the commit loop (`str.replace` with or without the count
argument, lines 121-124 and 138-143). -/
def applyOne (e : EditOperation) (c : List Char) : List Char :=
  if e.replace_all then replAll c e.old_string e.new_string
  else replaceFirst c e.old_string e.new_string

/-- A validation failure in step 6, with the 0-based loop index `i` (the
message prints `i + 1`); `ambiguous` also carries the occurrence count
embedded in the message. -/
inductive MultiEditErr where
  | sameStrings (i : Nat) : MultiEditErr
  | stringNotFound (i : Nat) : MultiEditErr
  | ambiguous (i : Nat) (occurrences : Nat) : MultiEditErr
  deriving DecidableEq, Repr

/-- Step 6: the validation (dry-run) loop over `edits`, starting at loop
index `i` with scratch content `c`.  `fileExists` is the flag captured at
step 3; when the file is new, the first operation with empty `old_string`
is skipped (its `new_string` becomes the scratch content).  Returns the
final scratch content on success. -/
def validateEdits (fileExists : Bool) : Nat → List EditOperation → List Char →
    Except MultiEditErr (List Char)
  | _, [], c => .ok c
  | i, e :: rest, c =>
    if e.old_string = e.new_string then .error (.sameStrings i)
    else if ¬ fileExists ∧ i = 0 ∧ e.old_string = [] then
      validateEdits fileExists (i + 1) rest e.new_string
    else if ¬ containsSub c e.old_string then .error (.stringNotFound i)
    else if ¬ e.replace_all ∧ 1 < countOcc c e.old_string then
      .error (.ambiguous i (countOcc c e.old_string))
    else validateEdits fileExists (i + 1) rest (applyOne e c)

/-- Step 7: the commit loop, replaying the same sequence against the real
content (no checks; the new-file first operation installs its `new_string`). -/
def applyEdits (fileExists : Bool) : Nat → List EditOperation → List Char → List Char
  | _, [], c => c
  | i, e :: rest, c =>
    if ¬ fileExists ∧ i = 0 ∧ e.old_string = [] then
      applyEdits fileExists (i + 1) rest e.new_string
    else applyEdits fileExists (i + 1) rest (applyOne e c)

/-- Outcome of `MultiEdit.run`.  `success` carries the final content written
by the single `file.write` call in step 8. -/
inductive MultiOutcome where
  | errEmptyEdits : MultiOutcome
  | errNewFileFirstOld : MultiOutcome
  | errValidation (e : MultiEditErr) : MultiOutcome
  | success (finalContent : List Char) : MultiOutcome
  deriving DecidableEq, Repr

/-- `MultiEdit.run` on a target file in state `content?` (`none` = absent):
steps 2 (non-empty edits), 4 (new-file mode requires an empty first
`old_string`), 5 (read or start empty), 6 (validate), 7 (apply), 8 (write). -/
def multiEdit_run (content? : Option (List Char)) (edits : List EditOperation) : MultiOutcome :=
  match edits with
  | [] => .errEmptyEdits
  | e0 :: _ =>
    let fileExists := content?.isSome
    if ¬ fileExists ∧ e0.old_string ≠ [] then .errNewFileFirstOld
    else
      let content := content?.getD []
      match validateEdits fileExists 0 edits content with
      | .error m => .errValidation m
      | .ok _ => .success (applyEdits fileExists 0 edits content)

/-- Target-file state after `MultiEdit.run`: the single write of step 8
happens only on the `success` outcome; every error path returns before it. -/
def multiEdit_fileAfter (content? : Option (List Char)) (edits : List EditOperation) :
    Option (List Char) :=
  match multiEdit_run content? edits with
  | .success c => some c
  | _ => content?

/-- `true` on every non-`success` outcome (the returned message starts with
`Error`). -/
def isMultiError : MultiOutcome → Bool
  | .success _ => false
  | _ => true

/-- The scratch content after folding a list of operations over `c` with
`applyOne` — the content "produced by operations 0..k-1" in spec terms,
for an existing file (where the new-file skip never fires). -/
def scratchAfter (c : List Char) (ops : List EditOperation) : List Char :=
  ops.foldl (fun acc e => applyOne e acc) c

/-- The three validation checks of step 6 for one operation against content
`c` (an existing file): distinct strings, `old_string` present, and
uniqueness unless `replace_all`. -/
def opValid (c : List Char) (e : EditOperation) : Bool :=
  decide (e.old_string ≠ e.new_string) && containsSub c e.old_string &&
    (e.replace_all || decide (countOcc c e.old_string ≤ 1))

/-! ## The Structured-Document Cell Editor and Reader
(`NotebookEdit.run` steps 4 to 9, `NotebookRead.run` step 6)

The notebook is modelled at the point where the JSON has been parsed and the
`cells` list extracted (steps 1 to 3 / 5 of the sources are path, extension
and JSON-shape guards).  A cell's `metadata` dict is carried by the editor
but never read, so it is omitted; output payloads are likewise opaque to
the editor and modelled as raw text. -/

/-- Opaque output payload: `NotebookEdit` never inspects outputs beyond
constructing an empty list. -/
abbrev NbOutput := List Char

/-- One notebook cell as the editor sees it.  Optional fields distinguish an
absent JSON key (`none`) from a present key: `execution_count = some none`
is the JSON key present with value `null`. -/
structure Cell where
  id : Option (List Char)
  cell_type : List Char
  source : List (List Char)
  execution_count : Option (Option Int)
  outputs : Option (List NbOutput)
  deriving DecidableEq, Repr

/-- Python `int(cell_id)` as used by both tools, modelled for an optional
sign followed by decimal digits (the exotic forms Python also accepts —
surrounding whitespace, underscores between digits — are not produced by
either addressing mode and are irrelevant to the theorems below, which only
use that both tools invoke the identical parser). -/
def parseDigitsAux : List Char → Nat → Option Nat
  | [], acc => some acc
  | c :: t, acc =>
    if c.isDigit then parseDigitsAux t (acc * 10 + (c.toNat - '0'.toNat)) else none

/-- Nonempty all-digit parse. -/
def parseDigits : List Char → Option Nat
  | [] => none
  | c :: t => parseDigitsAux (c :: t) 0

/-- `int(s)` for an optional sign and digits. -/
def pyInt? : List Char → Option Int
  | '-' :: t => (parseDigits t).map (fun n => -(n : Int))
  | '+' :: t => (parseDigits t).map (fun n => (n : Int))
  | l => (parseDigits l).map (fun n => (n : Int))

/-- The editor's id scan (lines 75-79 of `NotebookEdit.py`): index of the
first cell whose `id` equals `cid`, starting from position `i`. -/
def findById : List Cell → List Char → Nat → Option Nat
  | [], _, _ => none
  | cell :: rest, cid, i =>
    if cell.id = some cid then some i else findById rest cid (i + 1)

/-- The positional interpretation of `cell_id` shared by both tools:
`int(cell_id)` if in `[0, len(cells))`. -/
def posResolve (cells : List Cell) (cid : List Char) : Option Nat :=
  match pyInt? cid with
  | some n => if 0 ≤ n ∧ n < (cells.length : Int) then some n.toNat else none
  | none => none

/-- `NotebookEdit`'s cell resolution (step 7, `cell_id` truthy): the id scan
over all cells first, then the numeric interpretation. -/
def nbResolve (cells : List Cell) (cid : List Char) : Option Nat :=
  match findById cells cid 0 with
  | some i => some i
  | none => posResolve cells cid

/-- `NotebookRead`'s cell resolution (step 6, `cell_id` truthy): one loop
over the cells that checks the current cell's `id` and then, still inside
the loop body, tries the numeric interpretation (breaking on an in-range
parse).  `total` is `len(cells)` of the full list, `i` the loop position. -/
def readResolveAux (total : Nat) (cid : List Char) : List Cell → Nat → Option Nat
  | [], _ => none
  | cell :: rest, i =>
    if cell.id = some cid then some i
    else
      match pyInt? cid with
      | some n =>
        if 0 ≤ n ∧ n < (total : Int) then some n.toNat
        else readResolveAux total cid rest (i + 1)
      | none => readResolveAux total cid rest (i + 1)

/-- `NotebookRead`'s resolution over the whole cell list. -/
def readResolve (cells : List Cell) (cid : List Char) : Option Nat :=
  readResolveAux cells.length cid cells 0

/-- `s.split('\n')` (CPython: splitting the empty string gives `[""]`). -/
def splitNl : List Char → List (List Char)
  | [] => [[]]
  | c :: t =>
    let r := splitNl t
    if c = '\n' then [] :: r
    else
      match r with
      | [] => [[c]]
      | h :: hs => (c :: h) :: hs

/-- The re-joining loop of `_format_source`: every line except the last gets
a trailing `'\n'` back; an empty final line is dropped. -/
def formatJoin : List (List Char) → List (List Char)
  | [] => []
  | [last] => if last = [] then [] else [last]
  | l :: rest => (l ++ ['\n']) :: formatJoin rest

/-- `NotebookEdit._format_source`: the source text as the notebook's
line-array convention (empty text gives an empty array). -/
def formatSource (text : List Char) : List (List Char) :=
  if text = [] then [] else formatJoin (splitNl text)

/-- The cell constructed by insert mode (lines 113-127): given source, the
supplied type, a generated `cell-<len(cells)>` id, and — for a code cell —
`execution_count: null` and empty `outputs`. -/
def mkInsertCell (cellCount : Nat) (src ct : List Char) : Cell where
  id := some (chars "cell-" ++ Nat.toDigits 10 cellCount)
  cell_type := ct
  source := formatSource src
  execution_count := if ct = chars "code" then some none else none
  outputs := if ct = chars "code" then some [] else none

/-- Python `list.insert(pos, x)` (clamping an out-of-range position). -/
def pyInsert (l : List Cell) (pos : Nat) (x : Cell) : List Cell :=
  l.take pos ++ x :: l.drop pos

/-- `edit_mode`. -/
inductive NbMode where
  | replaceCell : NbMode
  | insertCell : NbMode
  | deleteCell : NbMode
  deriving DecidableEq, Repr

/-- Outcome of `NotebookEdit.run` on a parsed notebook; `successWrite`
carries the new cell list serialized by the single write in step 9. -/
inductive NbOutcome where
  | errMissingCellType : NbOutcome
  | errCellNotFound : NbOutcome
  | errNoCells : NbOutcome
  | errInvalidIndex : NbOutcome
  | successWrite (cells : List Cell) : NbOutcome
  deriving DecidableEq, Repr

/-- Step 8 for `replace` mode on the resolved cell: overwrite `source`; if a
`cell_type` is supplied, switch the type, `setdefault`-ing the code-only
fields on a switch to code and popping them on a code→markdown switch. -/
def nbReplaceCell (cell : Cell) (src : List Char) (ctype? : Option (List Char)) : Cell :=
  let cell1 := { cell with source := formatSource src }
  match ctype? with
  | none => cell1
  | some ct =>
    let oldType := cell.cell_type
    let cell2 := { cell1 with cell_type := ct }
    if ct = chars "code" ∧ oldType ≠ chars "code" then
      { cell2 with
        execution_count := some (cell2.execution_count.getD none)
        outputs := some (cell2.outputs.getD []) }
    else if ct = chars "markdown" ∧ oldType = chars "code" then
      { cell2 with execution_count := none, outputs := none }
    else cell2

/-- Step 8 dispatch once a target index (or none) is fixed; `hasCid` is the
truthiness of `cell_id`, which decides the insert position. -/
def nbApply (cells : List Cell) (src : List Char) (ctype? : Option (List Char))
    (mode : NbMode) (target : Option Nat) (hasCid : Bool) : NbOutcome :=
  match mode with
  | .deleteCell =>
    match target with
    | none => .errInvalidIndex
    | some t =>
      if cells.length ≤ t then .errInvalidIndex
      else .successWrite (cells.take t ++ cells.drop (t + 1))
  | .insertCell =>
    let newCell := mkInsertCell cells.length src (ctype?.getD [])
    let pos := if hasCid then target.getD 0 + 1 else 0
    .successWrite (pyInsert cells pos newCell)
  | .replaceCell =>
    match target with
    | none => .errInvalidIndex
    | some t =>
      match cells[t]? with
      | none => .errInvalidIndex
      | some cell => .successWrite (cells.set t (nbReplaceCell cell src ctype?))

/-- `NotebookEdit.run` on the parsed cell list (steps 4 and 7 to 9): the
`insert`-needs-`cell_type` guard, cell resolution (an empty `cell_id`
string is falsy in Python, hence treated as absent), and the edit itself. -/
def nbEdit_run (cells : List Cell) (cid? : Option (List Char)) (src : List Char)
    (ctype? : Option (List Char)) (mode : NbMode) : NbOutcome :=
  if mode = .insertCell ∧ ctype? = none then .errMissingCellType
  else
    match cid? with
    | some (c :: cs) =>
      match nbResolve cells (c :: cs) with
      | none => .errCellNotFound
      | some t => nbApply cells src ctype? mode (some t) true
    | _ =>
      if mode = .insertCell then nbApply cells src ctype? mode (some 0) false
      else
        match cells with
        | [] => .errNoCells
        | _ :: _ => nbApply cells src ctype? mode (some 0) false

/-- Notebook cell list after `NotebookEdit.run`: the write of step 9 happens
only on success; every error path returns before touching the document. -/
def nbFileAfter (cells : List Cell) (cid? : Option (List Char)) (src : List Char)
    (ctype? : Option (List Char)) (mode : NbMode) : List Cell :=
  match nbEdit_run cells cid? src ctype? mode with
  | .successWrite c => c
  | _ => cells

/-! ## The Todo-List Writer (`TodoWrite.run`, steps 1 to 4)

Steps 5 to 7 build the formatted list string; no claim reads it, so the
success outcome records only that the formatted path was reached. -/

/-- `status` literal. -/
inductive TodoStatus where
  | pending : TodoStatus
  | in_progress : TodoStatus
  | completed : TodoStatus
  deriving DecidableEq, Repr

/-- `priority` literal. -/
inductive TodoPriority where
  | high : TodoPriority
  | medium : TodoPriority
  | low : TodoPriority
  deriving DecidableEq, Repr

/-- One `TodoItem` (the pydantic model enforces `content` non-empty; no
theorem below needs that invariant). -/
structure TodoItem where
  content : List Char
  status : TodoStatus
  priority : TodoPriority
  id : List Char
  deriving DecidableEq, Repr

/-- Outcome of `TodoWrite.run`: the three early returns of steps 1, 2 and 4,
or the formatted-list success of steps 5 to 7.  `warnMultipleInProgress`
carries the contents of the `in_progress` items listed in the message. -/
inductive TodoOutcome where
  | errEmptyList : TodoOutcome
  | errDuplicateIds : TodoOutcome
  | warnMultipleInProgress (items : List (List Char)) : TodoOutcome
  | formattedList : TodoOutcome
  deriving DecidableEq, Repr

/-- Number of items with a given status (step 3's `status_counts`). -/
def countStatus (todos : List TodoItem) (st : TodoStatus) : Nat :=
  (todos.filter fun td => td.status = st).length

/-- `TodoWrite.run` control flow (steps 1 to 4 and the dispatch into the
formatting path). -/
def todoWrite_run (todos : List TodoItem) : TodoOutcome :=
  if todos = [] then .errEmptyList
  else if ¬ (todos.map (fun td => td.id)).Nodup then .errDuplicateIds
  else if 1 < countStatus todos .in_progress then
    .warnMultipleInProgress
      ((todos.filter fun td => td.status = .in_progress).map fun td => td.content)
  else .formattedList

/-- The exact response text of each early-return outcome (`none` for the
formatted list, whose full text no claim reads).  Matches the source's
f-strings byte for byte up to the embedded data. -/
def todoFailureMsg : TodoOutcome → Option (List Char)
  | .errEmptyList => some (chars "Error: Todo list cannot be empty")
  | .errDuplicateIds => some (chars "Error: All todo items must have unique IDs")
  | .warnMultipleInProgress items =>
    some (chars
        "Warning: Multiple tasks marked as in_progress. Recommended to have only one task in_progress at a time:\n"
      ++ List.intercalate (chars "\n") (items.map fun it => chars "- " ++ it))
  | .formattedList => none

/-! ## Helper lemmas -/

/-- Containment follows from a prefix match at the head. -/
theorem containsSub_of_head (s p : List Char) (h : p.isPrefixOf s = true) :
    containsSub s p = true := by
  cases s <;> simp [containsSub, h]

/-- `str.replace(p, n, 1)` with a match at the head. -/
theorem replaceFirst_of_head (s p n : List Char) (h : p.isPrefixOf s = true) :
    replaceFirst s p n = n ++ s.drop p.length := by
  cases s <;> simp [replaceFirst, h]

/-- A pattern sandwiched inside a string is contained in it. -/
theorem containsSub_append (x p y : List Char) : containsSub (x ++ p ++ y) p = true := by
  induction x with
  | nil =>
    exact containsSub_of_head _ _ ( List.isPrefixOf_iff_prefix.mpr (List.prefix_append p y))
  | cons c x ih =>
    show containsSub (c :: (x ++ p ++ y)) p = true
    simp only [containsSub, ih]
    simp

/-- A positive greedy occurrence count of a nonempty pattern implies
containment. -/
theorem countNE_pos_contains (s p : List Char) (hp : p ≠ []) (h : 0 < countNE s p) :
    containsSub s p = true := by
  cases s with
  | nil => rw [countNE.eq_def] at h; simp at h
  | cons c t =>
    by_cases hpre : p.isPrefixOf (c :: t)
    · simp [containsSub, hpre]
    · rw [countNE.eq_def] at h
      simp only [hp, hpre, List.cons_ne_nil, or_self, if_false, List.tail_cons] at h
      have ih := countNE_pos_contains t p hp h
      simp [containsSub, ih]
termination_by s.length

/-- A positive `str.count` implies containment (`old_string in content`). -/
theorem containsSub_of_countOcc_pos (s p : List Char) (h : 0 < countOcc s p) :
    containsSub s p = true := by
  by_cases hp : p = []
  · subst hp
    cases s <;> simp [containsSub, List.isPrefixOf]
  · exact countNE_pos_contains s p hp (by simpa [countOcc, hp] using h)

/-- Unfolding `firstOccIdx` at a cons with a head match. -/
theorem firstOccIdx_cons_pos (c : Char) (t p : List Char) (h : p.isPrefixOf (c :: t) = true) :
    firstOccIdx (c :: t) p = some 0 := by
  simp only [firstOccIdx]
  rw [if_pos h]

/-- Unfolding `firstOccIdx` at a cons without a head match. -/
theorem firstOccIdx_cons_neg (c : Char) (t p : List Char) (h : ¬ p.isPrefixOf (c :: t) = true) :
    firstOccIdx (c :: t) p = (firstOccIdx t p).map (· + 1) := by
  simp only [firstOccIdx]
  rw [if_neg h]

/-- Unfolding `replaceFirst` at a cons without a head match. -/
theorem replaceFirst_cons_neg (c : Char) (t p n : List Char)
    (h : ¬ p.isPrefixOf (c :: t) = true) :
    replaceFirst (c :: t) p n = c :: replaceFirst t p n := by
  simp only [replaceFirst]
  rw [if_neg h]

/-- `str.replace(p, n, 1)` rewrites exactly the first occurrence: if the
first occurrence of `p` in `x ++ p ++ y` starts at index `|x|`, the result
is `x ++ n ++ y`. -/
theorem replaceFirst_decomp (x p y n : List Char)
    (h : firstOccIdx (x ++ p ++ y) p = some x.length) :
    replaceFirst (x ++ p ++ y) p n = x ++ n ++ y := by
  induction x with
  | nil =>
    have hpre : p.isPrefixOf (p ++ y) = true :=
      List.isPrefixOf_iff_prefix.mpr (List.prefix_append p y)
    rw [List.nil_append, replaceFirst_of_head _ _ _ hpre, List.drop_left, List.nil_append]
  | cons c x ih =>
    have hc1 : (c :: x) ++ p ++ y = c :: (x ++ p ++ y) := by simp
    have hc2 : (c :: x) ++ n ++ y = c :: (x ++ n ++ y) := by simp
    rw [hc1, List.length_cons] at h
    rw [hc1, hc2]
    by_cases hpre : p.isPrefixOf (c :: (x ++ p ++ y)) = true
    · rw [firstOccIdx_cons_pos _ _ _ hpre] at h
      simp only [Option.some.injEq] at h
      omega
    · rw [firstOccIdx_cons_neg _ _ _ hpre, Option.map_eq_some'] at h
      obtain ⟨a, ha, hfa⟩ := h
      have haa : a = x.length := by omega
      subst haa
      rw [replaceFirst_cons_neg _ _ _ _ hpre, ih ha]

/-- Phase 2 never needs the validation skips: for an existing file the
commit loop is the plain `applyOne` fold. -/
theorem applyEdits_existing (edits : List EditOperation) :
    ∀ (c : List Char) (i : Nat), applyEdits true i edits c = scratchAfter c edits := by
  induction edits with
  | nil => intro c i; rfl
  | cons e rest ih =>
    intro c i
    simp only [applyEdits, scratchAfter, List.foldl_cons]
    rw [if_neg (by simp)]
    exact ih (applyOne e c) (i + 1)

/-- If every operation is valid against the scratch content it sees, the
validation pass succeeds and returns the folded scratch content
(existing-file case). -/
theorem validateEdits_ok_of_valid (edits : List EditOperation) :
    ∀ (c : List Char) (i : Nat),
      (∀ k (hk : k < edits.length),
        opValid (scratchAfter c (edits.take k)) (edits.get ⟨k, hk⟩) = true) →
      validateEdits true i edits c = .ok (scratchAfter c edits) := by
  induction edits with
  | nil => intro c i _; rfl
  | cons e rest ih =>
    intro c i hall
    have h0 := hall 0 (by simp)
    simp only [List.take_zero, scratchAfter, List.foldl_nil, List.get] at h0
    unfold opValid at h0
    simp only [Bool.and_eq_true, decide_eq_true_eq, Bool.or_eq_true] at h0
    obtain ⟨⟨hne, hcon⟩, huniq⟩ := h0
    rw [validateEdits, if_neg hne, if_neg (by simp), if_neg (by simp [hcon])]
    rw [if_neg (by rcases huniq with h | h <;> simp [h])]
    have hrest : ∀ k (hk : k < rest.length),
        opValid (scratchAfter (applyOne e c) (rest.take k)) (rest.get ⟨k, hk⟩) = true := by
      intro k hk
      have := hall (k + 1) (by simpa using Nat.succ_lt_succ hk)
      simpa [scratchAfter, List.take_succ_cons] using this
    have := ih (applyOne e c) (i + 1) hrest
    rw [this]
    simp [scratchAfter]

/-- If the operations up to `k` are valid and operation `k` is invalid
against the scratch content it sees, the validation pass fails
(existing-file case). -/
theorem validateEdits_err_of_invalid :
    ∀ (k : Nat) (edits : List EditOperation) (c : List Char) (i : Nat) (hk : k < edits.length),
      (∀ j (hj : j < k), opValid (scratchAfter c (edits.take j)) (edits.get ⟨j, hj.trans hk⟩) = true) →
      opValid (scratchAfter c (edits.take k)) (edits.get ⟨k, hk⟩) = false →
      ∃ m, validateEdits true i edits c = .error m := by
  intro k
  induction k with
  | zero =>
    intro edits c i hk _ hbad
    match edits, hk with
    | e :: rest, _ =>
      simp only [List.take_zero, scratchAfter, List.foldl_nil, List.get] at hbad
      unfold opValid at hbad
      simp only [Bool.and_eq_false_iff, decide_eq_false_iff_not, not_not,
        Bool.or_eq_false_iff, decide_eq_false_iff_not, not_le] at hbad
      rw [validateEdits]
      by_cases h1 : e.old_string = e.new_string
      · exact ⟨_, by rw [if_pos h1]⟩
      · rw [if_neg h1, if_neg (by simp)]
        by_cases h2 : containsSub c e.old_string = true
        · have h3 : ¬ e.replace_all ∧ 1 < countOcc c e.old_string := by
            rcases hbad with h | h
            · rcases h with h | h
              · exact absurd h1 (by simpa using h)
              · exact absurd h2 (by simp [h])
            · exact ⟨by simp [h.1], h.2⟩
          rw [if_neg (by simp [h2]), if_pos h3]
          exact ⟨_, rfl⟩
        · rw [if_pos (by simpa using h2)]
          exact ⟨_, rfl⟩
  | succ k ihk =>
    intro edits c i hk hgood hbad
    match edits, hk with
    | e :: rest, hk =>
      have h0 := hgood 0 (Nat.succ_pos k)
      simp only [List.take_zero, scratchAfter, List.foldl_nil, List.get] at h0
      unfold opValid at h0
      simp only [Bool.and_eq_true, decide_eq_true_eq, Bool.or_eq_true] at h0
      obtain ⟨⟨hne, hcon⟩, huniq⟩ := h0
      rw [validateEdits, if_neg hne, if_neg (by simp), if_neg (by simp [hcon])]
      rw [if_neg (by rcases huniq with h | h <;> simp [h])]
      refine ihk rest (applyOne e c) (i + 1) (Nat.lt_of_succ_lt_succ hk) ?_ ?_
      · intro j hj
        have := hgood (j + 1) (Nat.succ_lt_succ hj)
        simpa [scratchAfter, List.take_succ_cons] using this
      · simpa [scratchAfter, List.take_succ_cons] using hbad

/-- `MultiEdit.run` on an existing file is exactly: validate, then on
success apply and write. -/
theorem multiEdit_run_existing (c : List Char) (e0 : EditOperation) (rest : List EditOperation) :
    multiEdit_run (some c) (e0 :: rest) =
      (match validateEdits true 0 (e0 :: rest) c with
       | .error m => .errValidation m
       | .ok _ => .success (applyEdits true 0 (e0 :: rest) c)) := by
  simp [multiEdit_run]

/-- `MultiEdit.run` on an absent file whose first operation has an empty
`old_string` is exactly: validate from empty content, then on success apply
and write. -/
theorem multiEdit_run_new (e0 : EditOperation) (rest : List EditOperation)
    (h0 : e0.old_string = []) :
    multiEdit_run none (e0 :: rest) =
      (match validateEdits false 0 (e0 :: rest) [] with
       | .error m => .errValidation m
       | .ok _ => .success (applyEdits false 0 (e0 :: rest) [])) := by
  simp [multiEdit_run, h0]

/-! ## Claim theorems: the Exact-Match Editor -/

/-- Claim C2: For every content `F` and `old_string` occurring more than once
in `F` (Python's non-overlapping count), a single-edit call with
`replace_all = false` returns an error and performs no write — `F` stays
byte-identical — and, for a well-formed operation (the data model requires
`old_string ≠ new_string`), that error is the ambiguity rejection reporting
the exact occurrence count. -/
theorem edit_ambiguous_rejects_without_write (old new content : List Char)
    (h : 1 < countOcc content old) :
    edit_fileAfter old new false content = content ∧
      (old ≠ new → edit_run old new false content = .errAmbiguous (countOcc content old)) := by
  by_cases h1 : old = new
  · refine ⟨?_, fun hne => absurd h1 hne⟩
    unfold edit_fileAfter edit_run
    rw [if_pos h1]
  · have hcon : containsSub content old = true :=
      containsSub_of_countOcc_pos content old (by omega)
    have hrun : edit_run old new false content = .errAmbiguous (countOcc content old) := by
      unfold edit_run
      rw [if_neg h1, if_neg (by simp [hcon]), if_pos ⟨by simp, h⟩]
    exact ⟨by unfold edit_fileAfter; rw [hrun], fun _ => hrun⟩

/-- Witness for C2 at content `"aa"`, `old_string = "a"`, `new_string = "b"`:
the call reports 2 occurrences and the content is untouched. -/
theorem edit_ambiguous_rejects_without_write_witness :
    edit_fileAfter (chars "a") (chars "b") false (chars "aa") = chars "aa" ∧
      edit_run (chars "a") (chars "b") false (chars "aa") = .errAmbiguous 2 := by
  have h2 : countOcc (chars "aa") (chars "a") = 2 := by
    simp [countOcc, countNE, chars]
  have h := edit_ambiguous_rejects_without_write (chars "a") (chars "b") (chars "aa")
    (by rw [h2]; omega)
  exact ⟨h.1, by rw [h.2 (by decide), h2]⟩

/-- Claim C9: The concrete scenario: replacing `"Hello World"` by
`"Hi Universe"` with `replace_all = true` in the given three-line content
succeeds, reports 2 occurrences replaced, and leaves exactly the expected
content. -/
theorem edit_replace_all_scenario :
    edit_run (chars "Hello World") (chars "Hi Universe") true
        (chars "Hello World\nThis is a test file\nHello World again")
      = .success (chars "Hi Universe\nThis is a test file\nHi Universe again") 2 ∧
    edit_fileAfter (chars "Hello World") (chars "Hi Universe") true
        (chars "Hello World\nThis is a test file\nHello World again")
      = chars "Hi Universe\nThis is a test file\nHi Universe again" := by
  have h : edit_run (chars "Hello World") (chars "Hi Universe") true
      (chars "Hello World\nThis is a test file\nHello World again")
      = .success (chars "Hi Universe\nThis is a test file\nHi Universe again") 2 := by
    simp [edit_run, countOcc, countNE, replAll, replAllNE, chars, containsSub]
  exact ⟨h, by unfold edit_fileAfter; rw [h]⟩

/-- Claim C5, counterexample: With `F = "aab"`, `s = "ab"`, `t = "aa"` — both
occurring exactly once in `F` and `s ≠ t` — the first edit succeeds giving
`"aaa"`, the second edit also succeeds, but it rewrites the overlapping
earlier occurrence of `"aa"` and produces `"aba" ≠ F`: the round trip does
not reproduce `F`. -/
theorem edit_roundtrip_counterexample :
    chars "ab" ≠ chars "aa" ∧
    countOcc (chars "aab") (chars "ab") = 1 ∧
    countOcc (chars "aab") (chars "aa") = 1 ∧
    edit_run (chars "ab") (chars "aa") false (chars "aab")
      = .success (chars "aaa") 1 ∧
    edit_run (chars "aa") (chars "ab") false (chars "aaa")
      = .success (chars "aba") 1 ∧
    chars "aba" ≠ chars "aab" := by
  refine ⟨by decide, ?_, ?_, ?_, ?_, by decide⟩ <;>
    simp [edit_run, countOcc, countNE, chars, containsSub, replaceFirst]

/-- Claim C5, amended: The round trip `edit(F, s, t)` then `edit(·, t, s)`
succeeds and reproduces `F` exactly when, in addition to `s ≠ t` and `s`
occurring exactly once in `F = x ++ s ++ y` with its first occurrence at
index `|x|`, the replacement site is also the first occurrence of `t` in
the intermediate content `R = x ++ t ++ y` and `t` occurs exactly once in
`R` (the counterexample shows the original hypotheses — `s` and `t` each
occurring once in `F` — do not rule out an overlapping earlier occurrence
of `t` in `R`). -/
theorem edit_roundtrip_amended (x y s t : List Char) (hst : s ≠ t)
    (hsF : firstOccIdx (x ++ s ++ y) s = some x.length)
    (hcF : countOcc (x ++ s ++ y) s = 1)
    (htR : firstOccIdx (x ++ t ++ y) t = some x.length)
    (hcR : countOcc (x ++ t ++ y) t = 1) :
    edit_run s t false (x ++ s ++ y) = .success (x ++ t ++ y) 1 ∧
      edit_run t s false (x ++ t ++ y) = .success (x ++ s ++ y) 1 := by
  have hcs : containsSub (x ++ (s ++ y)) s = true := by
    have h := containsSub_append x s y
    rwa [List.append_assoc] at h
  have hct : containsSub (x ++ (t ++ y)) t = true := by
    have h := containsSub_append x t y
    rwa [List.append_assoc] at h
  constructor
  · unfold edit_run
    rw [if_neg hst, if_neg (by simp [hcs]),
      if_neg (by rw [hcF]; simp), if_neg (by simp)]
    rw [replaceFirst_decomp x s y t hsF]
  · unfold edit_run
    rw [if_neg (Ne.symm hst), if_neg (by simp [hct]),
      if_neg (by rw [hcR]; simp), if_neg (by simp)]
    rw [replaceFirst_decomp x t y s htR]

/-- Witness for the amended C5 at `F = "A cat B"`, `s = "cat"`, `t = "dog"`. -/
theorem edit_roundtrip_amended_witness :
    edit_run (chars "cat") (chars "dog") false (chars "A " ++ chars "cat" ++ chars " B")
      = .success (chars "A " ++ chars "dog" ++ chars " B") 1 ∧
    edit_run (chars "dog") (chars "cat") false (chars "A " ++ chars "dog" ++ chars " B")
      = .success (chars "A " ++ chars "cat" ++ chars " B") 1 :=
  edit_roundtrip_amended (chars "A ") (chars " B") (chars "cat") (chars "dog")
    (by decide) (by decide)
    (by simp [countOcc, countNE, chars])
    (by decide)
    (by simp [countOcc, countNE, chars])

/-! ## Claim theorems: the Atomic Multi-Edit Sequencer -/

/-- Claim C10: Phase equivalence: whenever the validation pass (step 6)
succeeds, the commit-phase replay (step 7) applied to the same initial
content computes exactly the final scratch content the validation pass
produced — the content written to disk is the content that was validated
(in both the existing-file and the new-file mode). -/
theorem multiEdit_phases_agree (fe : Bool) (edits : List EditOperation) :
    ∀ (c : List Char) (i : Nat) (final : List Char),
      validateEdits fe i edits c = .ok final → applyEdits fe i edits c = final := by
  induction edits with
  | nil =>
    intro c i final h
    simp only [validateEdits, Except.ok.injEq] at h
    simpa [applyEdits] using h
  | cons e rest ih =>
    intro c i final h
    simp only [validateEdits] at h
    by_cases h1 : e.old_string = e.new_string
    · rw [if_pos h1] at h; simp at h
    · rw [if_neg h1] at h
      by_cases h2 : ¬ fe ∧ i = 0 ∧ e.old_string = []
      · rw [if_pos h2] at h
        simp only [applyEdits]
        rw [if_pos h2]
        exact ih _ _ _ h
      · rw [if_neg h2] at h
        by_cases h3 : ¬ containsSub c e.old_string
        · rw [if_pos h3] at h; simp at h
        · rw [if_neg h3] at h
          by_cases h4 : ¬ e.replace_all ∧ 1 < countOcc c e.old_string
          · rw [if_pos h4] at h; simp at h
          · rw [if_neg h4] at h
            simp only [applyEdits]
            rw [if_neg h2]
            exact ih _ _ _ h

/-- Witness for C10: a one-operation sequence on `"xa"` whose validated
content `"xb"` is exactly what the commit phase computes. -/
theorem multiEdit_phases_agree_witness :
    applyEdits true 0 [⟨chars "a", chars "b", false⟩] (chars "xa") = chars "xb" :=
  multiEdit_phases_agree true [⟨chars "a", chars "b", false⟩] (chars "xa") 0 (chars "xb")
    (by simp [validateEdits, countOcc, countNE, chars, containsSub, applyOne, replaceFirst])

/-- Claim C1: Atomicity of the multi-edit sequencer on an existing file: if
some operation `k` is invalid against the content produced by operations
`0..k-1` (identical strings, absent `old_string`, or a non-unique match
without `replace_all`), the run returns an error and the file keeps its
pre-call content; if every operation validates, the run succeeds, all
operations are applied (the folded content), and the single write of step 8
installs exactly that content. -/
theorem multiEdit_atomicity (c : List Char) (edits : List EditOperation) :
    (∀ k (hk : k < edits.length),
        opValid (scratchAfter c (edits.take k)) (edits.get ⟨k, hk⟩) = false →
        (∀ j (hj : j < k),
          opValid (scratchAfter c (edits.take j)) (edits.get ⟨j, hj.trans hk⟩) = true) →
        isMultiError (multiEdit_run (some c) edits) = true ∧
          multiEdit_fileAfter (some c) edits = some c) ∧
    ((∀ k (hk : k < edits.length),
        opValid (scratchAfter c (edits.take k)) (edits.get ⟨k, hk⟩) = true) →
      edits ≠ [] →
      multiEdit_run (some c) edits = .success (scratchAfter c edits) ∧
        multiEdit_fileAfter (some c) edits = some (scratchAfter c edits)) := by
  constructor
  · intro k hk hbad hgood
    obtain ⟨m, hm⟩ := validateEdits_err_of_invalid k edits c 0 hk hgood hbad
    match edits, hk with
    | e0 :: rest, _ =>
      have hrun : multiEdit_run (some c) (e0 :: rest) = .errValidation m := by
        rw [multiEdit_run_existing, hm]
      refine ⟨by rw [hrun]; rfl, ?_⟩
      unfold multiEdit_fileAfter
      rw [hrun]
  · intro hall hne
    have hval := validateEdits_ok_of_valid edits c 0 hall
    match edits, hne with
    | e0 :: rest, _ =>
      have hrun : multiEdit_run (some c) (e0 :: rest)
          = .success (scratchAfter c (e0 :: rest)) := by
        rw [multiEdit_run_existing, hval, applyEdits_existing]
      refine ⟨hrun, ?_⟩
      unfold multiEdit_fileAfter
      rw [hrun]

/-- Witness for C1, both halves: a 3-operation sequence on `"hello"` whose
third operation's `old_string` does not exist in the content produced by
the first two fails with no mutation, and a fully valid sequence on `"ab"`
succeeds with exactly the folded content written. -/
theorem multiEdit_atomicity_witness :
    isMultiError (multiEdit_run (some (chars "hello"))
        [⟨chars "hello", chars "world", false⟩, ⟨chars "world", chars "W", false⟩,
          ⟨chars "zzz", chars "q", false⟩]) = true ∧
    multiEdit_fileAfter (some (chars "hello"))
        [⟨chars "hello", chars "world", false⟩, ⟨chars "world", chars "W", false⟩,
          ⟨chars "zzz", chars "q", false⟩] = some (chars "hello") ∧
    multiEdit_run (some (chars "ab")) [⟨chars "a", chars "c", false⟩]
      = .success (chars "cb") ∧
    multiEdit_fileAfter (some (chars "ab")) [⟨chars "a", chars "c", false⟩]
      = some (chars "cb") := by
  have hbad := (multiEdit_atomicity (chars "hello")
      [⟨chars "hello", chars "world", false⟩, ⟨chars "world", chars "W", false⟩,
        ⟨chars "zzz", chars "q", false⟩]).1 2 (by simp)
    (by simp [opValid, scratchAfter, applyOne, replaceFirst, countOcc, countNE,
      containsSub, List.isPrefixOf, chars])
    (by
      intro j hj
      match j, hj with
      | 0, _ =>
        simp [opValid, scratchAfter, applyOne, replaceFirst, countOcc, countNE,
          containsSub, chars]
      | 1, _ =>
        simp [opValid, scratchAfter, applyOne, replaceFirst, countOcc, countNE,
          containsSub, chars])
  have hgood := (multiEdit_atomicity (chars "ab") [⟨chars "a", chars "c", false⟩]).2
    (by
      intro k hk
      match k, hk with
      | 0, _ =>
        simp [opValid, scratchAfter, applyOne, replaceFirst, countOcc, countNE,
          containsSub, chars])
    (by simp)
  have hsc : scratchAfter (chars "ab") [⟨chars "a", chars "c", false⟩] = chars "cb" := by
    simp [scratchAfter, applyOne, replaceFirst, chars]
  exact ⟨hbad.1, hbad.2, by rw [hgood.1, hsc], by rw [hgood.2, hsc]⟩

/-- Claim C6: New-file creation: a multi-edit on an absent path whose single
operation has `old_string = ""` and a non-empty `new_string = X` succeeds
and the written file contains exactly `X` (the parent-directory
materialization of step 8 is an OS-level effect outside the content model). -/
theorem multiEdit_creates_new_file (X : List Char) (hX : X ≠ []) :
    multiEdit_run none [⟨[], X, false⟩] = .success X ∧
      multiEdit_fileAfter none [⟨[], X, false⟩] = some X := by
  have hval : validateEdits false 0 [⟨[], X, false⟩] [] = .ok X := by
    simp only [validateEdits]
    rw [if_neg (fun hh => hX hh.symm), if_pos (by simp)]
  have happ : applyEdits false 0 [⟨[], X, false⟩] [] = X := by
    simp only [applyEdits]
    rw [if_pos (by simp)]
  have hrun : multiEdit_run none [⟨[], X, false⟩] = .success X := by
    rw [multiEdit_run_new _ _ rfl, hval, happ]
  exact ⟨hrun, by unfold multiEdit_fileAfter; rw [hrun]⟩

/-- Witness for C6 at `X = "X"`. -/
theorem multiEdit_creates_new_file_witness :
    multiEdit_run none [⟨[], chars "X", false⟩] = .success (chars "X") ∧
      multiEdit_fileAfter none [⟨[], chars "X", false⟩] = some (chars "X") :=
  multiEdit_creates_new_file (chars "X") (by decide)

/-- Claim C3, counterexample: In new-file mode, `old_string == new_string` is
*not* permitted for operation 0: creating a file with empty `new_string`
(so item 0 has `old_string = new_string = ""`) is rejected by the
identical-strings check of step 6, which runs before the new-file skip, and
no file is created. -/
theorem multiEdit_newfile_same_strings_counterexample :
    multiEdit_run none [⟨[], [], false⟩] = .errValidation (.sameStrings 0) ∧
      multiEdit_fileAfter none [⟨[], [], false⟩] = none := by
  have hval : validateEdits false 0 [⟨[], [], false⟩] [] = .error (.sameStrings 0) := by
    simp [validateEdits]
  have hrun : multiEdit_run none [⟨[], [], false⟩] = .errValidation (.sameStrings 0) := by
    rw [multiEdit_run_new _ _ rfl, hval]
  exact ⟨hrun, by unfold multiEdit_fileAfter; rw [hrun]⟩

/-- Claim C3, amended: In new-file mode (absent file, first operation's
`old_string` empty), absence of `old_string` is indeed permitted for item 0
— its not-found and uniqueness checks are skipped and its `new_string`
becomes the initial content for both the validation and the commit phase —
but `old_string == new_string` is *not* permitted: an empty `new_string`
is rejected by the identical-strings check. -/
theorem multiEdit_newfile_item0 (e0 : EditOperation) (rest : List EditOperation)
    (h0 : e0.old_string = []) :
    (e0.new_string = [] →
        multiEdit_run none (e0 :: rest) = .errValidation (.sameStrings 0)) ∧
    (e0.new_string ≠ [] →
        validateEdits false 0 (e0 :: rest) [] = validateEdits false 1 rest e0.new_string ∧
        applyEdits false 0 (e0 :: rest) [] = applyEdits false 1 rest e0.new_string) := by
  constructor
  · intro hnew
    have hval : validateEdits false 0 (e0 :: rest) [] = .error (.sameStrings 0) := by
      simp only [validateEdits]
      rw [if_pos (by rw [h0, hnew])]
    rw [multiEdit_run_new e0 rest h0, hval]
  · intro hnew
    refine ⟨?_, ?_⟩
    · simp only [validateEdits]
      rw [if_neg (by rw [h0]; exact fun hh => hnew hh.symm), if_pos (by simp [h0])]
    · simp only [applyEdits]
      rw [if_pos (by simp [h0])]

/-- Witness for the amended C3: item 0 with `old_string = ""`,
`new_string = "A"` hands content `"A"` to the rest of both phases, while
`new_string = ""` is rejected. -/
theorem multiEdit_newfile_item0_witness :
    validateEdits false 0 [⟨[], chars "A", false⟩] []
        = validateEdits false 1 [] (chars "A") ∧
      applyEdits false 0 [⟨[], chars "A", false⟩] []
        = applyEdits false 1 [] (chars "A") ∧
      multiEdit_run none [⟨[], [], true⟩] = .errValidation (.sameStrings 0) := by
  have h1 := (multiEdit_newfile_item0 ⟨[], chars "A", false⟩ [] rfl).2 (by decide)
  have h2 := (multiEdit_newfile_item0 ⟨[], [], true⟩ [] rfl).1 rfl
  exact ⟨h1.1, h1.2, h2⟩

/-! ## Claim theorems: the Structured-Document Cell Editor and Reader -/

/-- When `cell_id` has no in-range numeric reading, the reader's interleaved
loop degenerates to the plain id scan. -/
theorem readResolveAux_eq_findById (total : Nat) (cid : List Char)
    (hp : ∀ n, pyInt? cid = some n → ¬ (0 ≤ n ∧ n < (total : Int))) :
    ∀ (l : List Cell) (i : Nat), readResolveAux total cid l i = findById l cid i := by
  intro l
  induction l with
  | nil => intro i; rfl
  | cons cell rest ih =>
    intro i
    simp only [readResolveAux, findById]
    by_cases hid : cell.id = some cid
    · rw [if_pos hid, if_pos hid]
    · rw [if_neg hid, if_neg hid]
      cases hint : pyInt? cid with
      | none => exact ih (i + 1)
      | some n =>
        show (if 0 ≤ n ∧ n < (total : Int) then some n.toNat
          else readResolveAux total cid rest (i + 1)) = findById rest cid (i + 1)
        rw [if_neg (hp n hint)]
        exact ih (i + 1)

/-- An in-range positional reading forces a nonempty cell list. -/
theorem posResolve_some_ne_nil (cells : List Cell) (cid : List Char) (n : Nat)
    (h : posResolve cells cid = some n) : cells ≠ [] := by
  intro hnil
  subst hnil
  cases hint : pyInt? cid with
  | none => simp [posResolve, hint] at h
  | some m =>
    simp only [posResolve, hint, List.length_nil, Nat.cast_zero] at h
    rw [if_neg (by omega)] at h
    exact Option.noConfusion h

/-- Claim C4, counterexample: Notebook `[{id: "x"}, {id: "0"}]` with
`cell_id = "0"`: the editor resolves the cell with the matching explicit id
(index 1), but the reader's positional check runs inside its id-scan loop —
at the first cell, whose id does not match, `"0"` already parses as an
in-range index, so the reader resolves cell 0 positionally.  The two
addressing modes do not resolve to the same cell, and the reader does not
resolve to the cell with the matching id. -/
theorem nb_resolution_counterexample :
    nbResolve [⟨some (chars "x"), chars "markdown", [], none, none⟩,
        ⟨some (chars "0"), chars "markdown", [], none, none⟩] (chars "0") = some 1 ∧
    readResolve [⟨some (chars "x"), chars "markdown", [], none, none⟩,
        ⟨some (chars "0"), chars "markdown", [], none, none⟩] (chars "0") = some 0 ∧
    (([⟨some (chars "x"), chars "markdown", [], none, none⟩,
        ⟨some (chars "0"), chars "markdown", [], none, none⟩] :
          List Cell).get ⟨1, by decide⟩).id = some (chars "0") := by
  refine ⟨by decide, by decide, by decide⟩

/-- Claim C4, amended: The *editor* resolves id-first: an id match wins, and
the positional interpretation applies only when no cell's id matches.  The
*reader* interleaves the positional check with its id scan: when `cell_id`
has no in-range numeric reading it degenerates to the id scan, but when it
does, the reader returns the id match only if it is at cell 0 and otherwise
resolves positionally — even when a later cell's id matches, so the two
tools can resolve different cells.  Both return their not-found error
exactly when no id matches and `cell_id` is not an in-range index. -/
theorem nb_resolution_amended (cells : List Cell) (cid : List Char) :
    (∀ i, findById cells cid 0 = some i → nbResolve cells cid = some i) ∧
    (findById cells cid 0 = none → nbResolve cells cid = posResolve cells cid) ∧
    (posResolve cells cid = none → readResolve cells cid = findById cells cid 0) ∧
    (∀ n c0 rest, posResolve cells cid = some n → cells = c0 :: rest →
      readResolve cells cid = (if c0.id = some cid then some 0 else some n)) ∧
    (nbResolve cells cid = none ↔
      findById cells cid 0 = none ∧ posResolve cells cid = none) ∧
    (readResolve cells cid = none ↔
      findById cells cid 0 = none ∧ posResolve cells cid = none) := by
  have hreadPos : ∀ n c0 rest, posResolve cells cid = some n → cells = c0 :: rest →
      readResolve cells cid = (if c0.id = some cid then some 0 else some n) := by
    intro n c0 rest hpos hc
    subst hc
    cases hint : pyInt? cid with
    | none => simp [posResolve, hint] at hpos
    | some m =>
      simp only [posResolve, hint] at hpos
      by_cases hrange : 0 ≤ m ∧ m < ((c0 :: rest).length : Int)
      · rw [if_pos hrange] at hpos
        simp only [Option.some.injEq] at hpos
        unfold readResolve readResolveAux
        by_cases hid : c0.id = some cid
        · rw [if_pos hid, if_pos hid]
        · rw [if_neg hid, if_neg hid]
          simp only [hint]
          rw [if_pos hrange, hpos]
      · rw [if_neg hrange] at hpos
        exact absurd hpos (by simp)
  have hreadNone : posResolve cells cid = none →
      readResolve cells cid = findById cells cid 0 := by
    intro hpos
    unfold readResolve
    apply readResolveAux_eq_findById
    intro n hn hrange
    simp only [posResolve, hn] at hpos
    rw [if_pos hrange] at hpos
    exact Option.noConfusion hpos
  refine ⟨?_, ?_, hreadNone, hreadPos, ?_, ?_⟩
  · intro i h; simp [nbResolve, h]
  · intro h; simp [nbResolve, h]
  · unfold nbResolve
    cases hf : findById cells cid 0 with
    | some i => simp
    | none => simp
  · cases hpos : posResolve cells cid with
    | none => rw [hreadNone hpos]; simp [hpos]
    | some n =>
      have hne := posResolve_some_ne_nil cells cid n hpos
      match cells, hne with
      | c0 :: rest, _ =>
        rw [hreadPos n c0 rest hpos rfl]
        constructor
        · intro h
          by_cases hid : c0.id = some cid
          · rw [if_pos hid] at h; exact absurd h (by simp)
          · rw [if_neg hid] at h; exact absurd h (by simp)
        · intro h
          exact absurd h.2 (by simp)

/-- Witness for the amended C4: a one-cell notebook with id `"a"` and
`cell_id = "a"` (no numeric reading): both tools resolve cell 0 by id, and
with `cell_id = "7"` (numeric, out of range, no id match) both report
not-found. -/
theorem nb_resolution_amended_witness :
    nbResolve [⟨some (chars "a"), chars "markdown", [], none, none⟩] (chars "a") = some 0 ∧
    readResolve [⟨some (chars "a"), chars "markdown", [], none, none⟩] (chars "a") = some 0 ∧
    nbResolve [⟨some (chars "a"), chars "markdown", [], none, none⟩] (chars "7") = none ∧
    readResolve [⟨some (chars "a"), chars "markdown", [], none, none⟩] (chars "7") = none := by
  have h := nb_resolution_amended
    [⟨some (chars "a"), chars "markdown", [], none, none⟩] (chars "a")
  have h7 := nb_resolution_amended
    [⟨some (chars "a"), chars "markdown", [], none, none⟩] (chars "7")
  refine ⟨h.1 0 (by decide), ?_, ?_, ?_⟩
  · rw [h.2.2.1 (by decide)]; decide
  · exact h7.2.2.2.2.1.mpr ⟨by decide, by decide⟩
  · exact h7.2.2.2.2.2.mpr ⟨by decide, by decide⟩

/-- Claim C7: Notebook insert: with a truthy `cell_id` resolving to index `t`
and a supplied `cell_type`, the new cell — built from the given source via
the line-array normalization, with the freshly generated identifier
`cell-<len(cells)>`, and with `execution_count: null` and empty `outputs`
exactly when it is a code cell — is inserted immediately after the resolved
cell (position `t + 1`); without a `cell_id` it is inserted at position 0;
and an insert without a supplied `cell_type` fails with the missing-type
error before any document mutation. -/
theorem nb_insert_spec (cells : List Cell) (cid src ct : List Char) (t : Nat)
    (hcid : cid ≠ []) (hres : nbResolve cells cid = some t) :
    nbEdit_run cells (some cid) src (some ct) .insertCell
        = .successWrite (pyInsert cells (t + 1)
            { id := some (chars "cell-" ++ Nat.toDigits 10 cells.length)
              cell_type := ct
              source := formatSource src
              execution_count := if ct = chars "code" then some none else none
              outputs := if ct = chars "code" then some [] else none }) ∧
    nbEdit_run cells none src (some ct) .insertCell
        = .successWrite (pyInsert cells 0
            { id := some (chars "cell-" ++ Nat.toDigits 10 cells.length)
              cell_type := ct
              source := formatSource src
              execution_count := if ct = chars "code" then some none else none
              outputs := if ct = chars "code" then some [] else none }) ∧
    (∀ cid?, nbEdit_run cells cid? src none .insertCell = .errMissingCellType ∧
      nbFileAfter cells cid? src none .insertCell = cells) := by
  refine ⟨?_, ?_, ?_⟩
  · match cid, hcid with
    | c :: cs, _ =>
      unfold nbEdit_run
      rw [if_neg (by simp)]
      simp only [hres]
      unfold nbApply mkInsertCell
      simp
  · unfold nbEdit_run
    rw [if_neg (by simp)]
    unfold nbApply mkInsertCell
    simp
  · intro cid?
    have hrun : nbEdit_run cells cid? src none .insertCell = .errMissingCellType := by
      unfold nbEdit_run
      rw [if_pos ⟨rfl, rfl⟩]
    exact ⟨hrun, by unfold nbFileAfter; rw [hrun]⟩

/-- Witness for C7: inserting a code cell after the only cell of a one-cell
notebook (resolved by id `"a"`). -/
theorem nb_insert_spec_witness :
    nbEdit_run [⟨some (chars "a"), chars "markdown", [], none, none⟩] (some (chars "a"))
        (chars "x = 1") (some (chars "code")) .insertCell
      = .successWrite (pyInsert [⟨some (chars "a"), chars "markdown", [], none, none⟩] 1
          { id := some (chars "cell-" ++ Nat.toDigits 10 1)
            cell_type := chars "code"
            source := formatSource (chars "x = 1")
            execution_count := if chars "code" = chars "code" then some none else none
            outputs := if chars "code" = chars "code" then some [] else none }) :=
  (nb_insert_spec [⟨some (chars "a"), chars "markdown", [], none, none⟩] (chars "a")
    (chars "x = 1") (chars "code") 0 (by decide) (by decide)).1

/-! ## Claim theorems: the Todo-List Writer -/

/-- A boolean prefix of a list is a prefix of any right-extension. -/
theorem isPrefixOf_append_right (p A r : List Char) (h : p.isPrefixOf A = true) :
    p.isPrefixOf (A ++ r) = true :=
  List.isPrefixOf_iff_prefix.mpr
    (( List.isPrefixOf_iff_prefix.mp h).trans (List.prefix_append A r))

/-- A string that is not a prefix of `A` and no longer than `A` is not a
prefix of any right-extension of `A`. -/
theorem isPrefixOf_append_right_false (p A r : List Char)
    (h : p.isPrefixOf A = false) (hlen : p.length ≤ A.length) :
    p.isPrefixOf (A ++ r) = false := by
  by_contra hc
  have hc' : p.isPrefixOf (A ++ r) = true := by
    revert hc
    cases p.isPrefixOf (A ++ r) <;> simp
  have hp : p <+: A ++ r := List.isPrefixOf_iff_prefix.mp hc'
  have htake : p = (A ++ r).take p.length := List.prefix_iff_eq_take.mp hp
  rw [List.take_append_of_le_length hlen] at htake
  have hpa : p <+: A := htake ▸ List.take_prefix p.length A
  have := List.isPrefixOf_iff_prefix.mpr hpa
  rw [h] at this
  exact absurd this (by simp)

/-- Claim C8, counterexample: A list with two `in_progress` items is rejected
early (no formatted list), but the response begins with `Warning:`, not
with the `Error:` token the interface convention prescribes for failures. -/
theorem todo_multi_inprogress_counterexample :
    todoWrite_run [⟨chars "a", .in_progress, .high, chars "1"⟩,
        ⟨chars "b", .in_progress, .low, chars "2"⟩]
      = .warnMultipleInProgress [chars "a", chars "b"] ∧
    (todoFailureMsg (todoWrite_run [⟨chars "a", .in_progress, .high, chars "1"⟩,
        ⟨chars "b", .in_progress, .low, chars "2"⟩])).map
          (fun m => (chars "Error:").isPrefixOf m) = some false ∧
    (todoFailureMsg (todoWrite_run [⟨chars "a", .in_progress, .high, chars "1"⟩,
        ⟨chars "b", .in_progress, .low, chars "2"⟩])).map
          (fun m => (chars "Warning:").isPrefixOf m) = some true := by
  refine ⟨by decide, by decide, by decide⟩

/-- Claim C8, amended: For every todo list with unique ids and two or more
`in_progress` items, the writer does reject the list — it returns early
with the multiple-in-progress response, never reaching the formatted list —
but that response begins with `Warning:` (the data model's recoverable
warning), not with the `Error:` failure token. -/
theorem todo_multi_inprogress_warns (todos : List TodoItem)
    (hne : todos ≠ []) (hids : (todos.map fun td => td.id).Nodup)
    (h2 : 1 < countStatus todos .in_progress) :
    todoWrite_run todos = .warnMultipleInProgress
        ((todos.filter fun td => td.status = .in_progress).map fun td => td.content) ∧
    ∀ m, todoFailureMsg (todoWrite_run todos) = some m →
      (chars "Warning:").isPrefixOf m = true ∧ (chars "Error:").isPrefixOf m = false := by
  have hrun : todoWrite_run todos = .warnMultipleInProgress
      ((todos.filter fun td => td.status = .in_progress).map fun td => td.content) := by
    unfold todoWrite_run
    rw [if_neg hne, if_neg (by simp [hids]), if_pos h2]
  refine ⟨hrun, ?_⟩
  intro m hm
  rw [hrun] at hm
  simp only [todoFailureMsg, Option.some.injEq] at hm
  subst hm
  constructor
  · exact isPrefixOf_append_right _ _ _ (by decide)
  · exact isPrefixOf_append_right_false _ _ _ (by decide) (by decide)

/-- Witness for the amended C8 at the two-item list. -/
theorem todo_multi_inprogress_warns_witness :
    todoWrite_run [⟨chars "a", .in_progress, .high, chars "1"⟩,
        ⟨chars "b", .in_progress, .low, chars "2"⟩]
      = .warnMultipleInProgress [chars "a", chars "b"] := by
  have h := (todo_multi_inprogress_warns
      [⟨chars "a", .in_progress, .high, chars "1"⟩,
        ⟨chars "b", .in_progress, .low, chars "2"⟩]
      (by decide) (by decide) (by decide)).1
  rw [h]
  decide

end AgencyTools
